import Mathlib

/-!
Shallow embedding of the hybrid study-plan persistence layer
(`src/lib/study-plan-storage.ts`, class `StudyPlanStorage`).

Modelling conventions:
* the browser `localStorage` pair (plan collection under `STORAGE_KEY`,
  activity log under `ACTIVITY_KEY`) becomes the record `StoreState`;
  the plan partition is `Option (List StoredStudyPlan)` so that the
  "key absent" branch of `deleteFromLocalStorage` is representable,
  while the activity partition is a plain list (absence and `[]` are
  indistinguishable through `getActivityLog`);
* `Date.now()` and `Math.random().toString(36).substr(2, 9)` are passed
  in as explicit parameters (`t : Nat`, `r : String`) — one pair per
  textual call site, since distinct call sites may observe distinct
  values;
* ISO-8601 timestamps are modelled as `Nat` clock readings (ISO string
  comparison agrees with chronological order);
* the remote `SupabaseStorage` adapter (not part of the sources) is
  opaque: an async operation receives the remote outcome as an
  `Except Unit` argument, and — mirroring the `try/catch` in the code —
  ignores it;
* JavaScript numbers are modelled as `ℚ`, with `Option ℚ` where `NaN`
  can arise (`none` = NaN); `Math.round` is `⌊x + 1/2⌋`, its behaviour
  on non-negative arguments and on ties (round half up).
-/

namespace StudyPlanStore

/-- One scheduled day inside a plan (`DayPlan` from the generator module);
only the two flags read by `getStats` are retained. -/
structure DayPlan where
  isRestDay : Bool
  isSpecialDay : Bool
deriving DecidableEq, Repr

/-- The `formData` snapshot embedded in a stored plan. -/
structure FormData where
  concurso : String
  cargo : String
  horasLiquidas : String
  disciplinasDificuldade : List String
  plataformaEstudo : String
  tempoEstudo : String
deriving DecidableEq, Repr

/-- The persisted plan record (`StoredStudyPlan`). -/
structure StoredStudyPlan where
  id : String
  title : String
  concurso : String
  cargo : String
  createdAt : Nat
  updatedAt : Nat
  totalDays : Nat
  completedTasks : List String
  plans : List DayPlan
  formData : FormData
deriving DecidableEq, Repr

/-- `Omit<StoredStudyPlan, 'id' | 'createdAt' | 'updatedAt'>` — the
argument of `savePlan` / `savePlanSync`. -/
structure PlanData where
  title : String
  concurso : String
  cargo : String
  totalDays : Nat
  completedTasks : List String
  plans : List DayPlan
  formData : FormData
deriving DecidableEq, Repr

/-- The three activity kinds accepted by `logActivity`. -/
inductive ActivityType where
  | created
  | updated
  | completed_task
deriving DecidableEq, Repr

/-- A persisted activity-log entry. -/
structure ActivityEntry where
  id : String
  type : ActivityType
  planTitle : String
  timestamp : Nat
  description : String
deriving DecidableEq, Repr

/-- `Partial<StoredStudyPlan>` — the `updates` argument of
`updatePlan` / `updatePlanSync`; `none` = field absent. -/
structure PlanUpdates where
  id : Option String := none
  title : Option String := none
  concurso : Option String := none
  cargo : Option String := none
  createdAt : Option Nat := none
  updatedAt : Option Nat := none
  totalDays : Option Nat := none
  completedTasks : Option (List String) := none
  plans : Option (List DayPlan) := none
  formData : Option FormData := none
deriving DecidableEq, Repr

/-- The two `localStorage` partitions used by the module. -/
structure StoreState where
  plans : Option (List StoredStudyPlan)
  activity : List ActivityEntry
deriving DecidableEq, Repr

/-- The store before anything was ever written (both keys absent). -/
def initState : StoreState := { plans := none, activity := [] }

/-- `getAllPlans()`: parsed contents of `STORAGE_KEY`, `[]` when the key
is absent (or, in the code, corrupt). -/
def getAllPlans (s : StoreState) : List StoredStudyPlan :=
  s.plans.getD []

/-- `getActivityLog()`: parsed contents of `ACTIVITY_KEY`, `[]` when
absent. -/
def getActivityLog (s : StoreState) : List ActivityEntry :=
  s.activity

/-- JavaScript `split(' ')[0]`: the characters before the first space
(splitting on the single-space separator, the head of the split is
exactly the maximal space-free prefix). -/
def firstSpaceToken (s : String) : String :=
  (s.data.takeWhile (fun c => c != ' ')).asString

/-- JavaScript `String.prototype.trim()`: strip leading and trailing
whitespace. -/
def jsTrim (s : String) : String :=
  (((s.data.dropWhile (fun c => c.isWhitespace)).reverse.dropWhile
    (fun c => c.isWhitespace)).reverse).asString

/-- The template literal `plan_${Date.now()}_${random}`. -/
def genId (t : Nat) (r : String) : String :=
  "plan_" ++ Nat.repr t ++ "_" ++ r

/-- The template literal `activity_${Date.now()}_${random}`. -/
def genActivityId (t : Nat) (r : String) : String :=
  "activity_" ++ Nat.repr t ++ "_" ++ r

/-- `logActivity(type, planTitle, description)`: prepend (`unshift`) the
new entry and keep only the first 50 (`slice(0, 50)`). -/
def logActivity (ty : ActivityType) (planTitle description : String)
    (t : Nat) (r : String) (s : StoreState) : StoreState :=
  let activities := getActivityLog s
  let newActivity : ActivityEntry :=
    { id := genActivityId t r, type := ty, planTitle := planTitle,
      timestamp := t, description := description }
  { s with activity := (newActivity :: activities).take 50 }

/-- The record built inside `savePlan`/`savePlanSync`: the spread of
`planData` extended with the fresh `id` and `createdAt = updatedAt = now`. -/
def mkNewPlan (d : PlanData) (t : Nat) (r : String) : StoredStudyPlan :=
  { id := genId t r, title := d.title, concurso := d.concurso,
    cargo := d.cargo, createdAt := t, updatedAt := t,
    totalDays := d.totalDays, completedTasks := d.completedTasks,
    plans := d.plans, formData := d.formData }

/-- `savePlanSync(planData)`: push the new plan onto the stored list,
log a `created` activity, fire the remote write without waiting, and
return the fresh id. -/
def savePlanSync (d : PlanData) (t : Nat) (r : String)
    (ta : Nat) (ra : String) (s : StoreState) : StoreState × String :=
  let plans := getAllPlans s
  let id := genId t r
  let newPlan := mkNewPlan d t r
  let s1 : StoreState := { s with plans := some (plans ++ [newPlan]) }
  let s2 := logActivity ActivityType.created newPlan.title
    ("Plano \"" ++ newPlan.title ++ "\" foi criado") ta ra s1
  (s2, id)

/-- `savePlan(planData)` (async variant): identical local effect; the
awaited remote write is wrapped in `try/catch`, so its outcome
(`remote`) never influences state or result. -/
def savePlan (d : PlanData) (t : Nat) (r : String)
    (ta : Nat) (ra : String) (remote : Except Unit Unit)
    (s : StoreState) : StoreState × String :=
  savePlanSync d t r ta ra s

/-- The object spread `{ ...plans[index], ...updates, updatedAt: now }`:
every present field of `updates` wins over the stored field, and the
trailing explicit `updatedAt` overrides both. -/
def applyUpdates (p : StoredStudyPlan) (u : PlanUpdates) (now : Nat) :
    StoredStudyPlan :=
  { id := u.id.getD p.id, title := u.title.getD p.title,
    concurso := u.concurso.getD p.concurso, cargo := u.cargo.getD p.cargo,
    createdAt := u.createdAt.getD p.createdAt, updatedAt := now,
    totalDays := u.totalDays.getD p.totalDays,
    completedTasks := u.completedTasks.getD p.completedTasks,
    plans := u.plans.getD p.plans, formData := u.formData.getD p.formData }

/-- `updatePlanSync(id, updates)`: find the plan (`findIndex`), merge,
write back, and — when `updates.completedTasks` is present — compare the
new length against `oldPlan` (a copy taken BEFORE the array slot was
overwritten), logging `completed_task` on growth and then `updated`. -/
def updatePlanSync (id : String) (u : PlanUpdates) (t : Nat)
    (ta1 ta2 : Nat) (ra1 ra2 : String) (s : StoreState) :
    StoreState × Bool :=
  let plans := getAllPlans s
  let i := plans.findIdx (fun plan => plan.id == id)
  if h : i < plans.length then
    let oldPlan := plans.get ⟨i, h⟩
    let updatedPlan := applyUpdates oldPlan u t
    let plans2 := plans.set i updatedPlan
    let s1 : StoreState := { s with plans := some plans2 }
    let s2 :=
      match u.completedTasks with
      | some newTasks =>
        let oldCompletedCount := oldPlan.completedTasks.length
        let newCompletedCount := newTasks.length
        let sA :=
          if oldCompletedCount < newCompletedCount then
            logActivity ActivityType.completed_task updatedPlan.title
              ("Tarefa completada no plano \"" ++ updatedPlan.title ++ "\"")
              ta1 ra1 s1
          else s1
        logActivity ActivityType.updated updatedPlan.title
          ("Plano \"" ++ updatedPlan.title ++ "\" foi atualizado")
          ta2 ra2 sA
      | none => s1
    (s2, true)
  else (s, false)

/-- `updatePlan(id, updates)` (async variant). Faithful to the source:
the old completed count is read from `plans[index]` AFTER the slot was
overwritten with the merged record (`plans[index] = updatedPlan` happens
first), so it is the NEW count that is read back; the `?.length || 0`
chain becomes `Option.map`/`getD 0`. The awaited remote update is
caught, so `remote` is ignored. -/
def updatePlan (id : String) (u : PlanUpdates) (t : Nat)
    (ta1 ta2 : Nat) (ra1 ra2 : String) (remote : Except Unit Unit)
    (s : StoreState) : StoreState × Bool :=
  let plans := getAllPlans s
  let i := plans.findIdx (fun plan => plan.id == id)
  if h : i < plans.length then
    let oldPlan := plans.get ⟨i, h⟩
    let updatedPlan := applyUpdates oldPlan u t
    let plans2 := plans.set i updatedPlan
    let s1 : StoreState := { s with plans := some plans2 }
    let s2 :=
      match u.completedTasks with
      | some newTasks =>
        let oldCompletedCount :=
          ((plans2.get? i).map (fun p => p.completedTasks.length)).getD 0
        let newCompletedCount := newTasks.length
        let sA :=
          if oldCompletedCount < newCompletedCount then
            logActivity ActivityType.completed_task updatedPlan.title
              ("Tarefa completada no plano \"" ++ updatedPlan.title ++ "\"")
              ta1 ra1 s1
          else s1
        logActivity ActivityType.updated updatedPlan.title
          ("Plano \"" ++ updatedPlan.title ++ "\" foi atualizado")
          ta2 ra2 sA
      | none => s1
    (s2, true)
  else (s, false)

/-- `getPlanById(id)`: `plans.find(plan => plan.id === id) || null`,
paired with the (unchanged) store to record that the operation reads
only. -/
def getPlanById (id : String) (s : StoreState) :
    Option StoredStudyPlan × StoreState :=
  ((getAllPlans s).find? (fun plan => plan.id == id), s)

/-- `loadFromSupabase()`: on remote success with a non-empty list,
overwrite `STORAGE_KEY` and return the remote list; on success with an
empty list, return it without touching the store; on remote error,
return the current local contents unchanged. -/
def loadFromSupabase (remote : Except Unit (List StoredStudyPlan))
    (s : StoreState) : List StoredStudyPlan × StoreState :=
  match remote with
  | Except.ok supabasePlans =>
    if 0 < supabasePlans.length then
      (supabasePlans, { s with plans := some supabasePlans })
    else (supabasePlans, s)
  | Except.error _ => (getAllPlans s, s)

/-- `deleteFromLocalStorage(id)` (private helper): fail when the key is
absent; otherwise `findIndex` by id, fail on miss, and on hit keep every
entry except the one at that index (`filter((_, index) => index !==
planIndex)` = `eraseIdx`). -/
def deleteFromLocalStorage (id : String) (s : StoreState) :
    StoreState × Bool :=
  match s.plans with
  | none => (s, false)
  | some currentPlans =>
    let planIndex := currentPlans.findIdx (fun plan => plan.id == id)
    if planIndex < currentPlans.length then
      ({ s with plans := some (currentPlans.eraseIdx planIndex) }, true)
    else (s, false)

/-- `deletePlan(id)` (async variant): reject empty / all-whitespace ids,
trim, delete locally; the remote delete is awaited inside `try/catch`,
so its outcome never changes the reported result. -/
def deletePlan (id : String) (remote : Except Unit Unit)
    (s : StoreState) : StoreState × Bool :=
  if jsTrim id == "" then (s, false)
  else
    let result := deleteFromLocalStorage (jsTrim id) s
    result

/-- `updateCompletedTasks(planId, completedTasks)`: validate the id
(`!planId` — only the empty string is falsy here), delegate to
`updatePlanSync` with a `completedTasks`-only update, then on success
re-serialize the full plan list as a defensive backup write. -/
def updateCompletedTasks (planId : String) (completedTasks : List String)
    (t : Nat) (ta1 ta2 : Nat) (ra1 ra2 : String) (s : StoreState) :
    StoreState × Bool :=
  if planId == "" then (s, false)
  else
    let result := updatePlanSync planId
      { completedTasks := some completedTasks } t ta1 ta2 ra1 ra2 s
    if result.2 then
      ({ result.1 with plans := some (getAllPlans result.1) }, true)
    else (result.1, false)

/-- Longest prefix of decimal digits of a character list. -/
def leadingDigits : List Char → List Char
  | [] => []
  | c :: cs => if c.isDigit then c :: leadingDigits cs else []

/-- Decimal value of a digit list (most significant first). -/
def digitsToNat (l : List Char) : Nat :=
  l.foldl (fun acc c => 10 * acc + (c.toNat - 48)) 0

/-- JavaScript `parseInt(s)` restricted to its radix-10 behaviour (the
inputs here are hour counts, never `0x…` literals): skip leading
whitespace, accept an optional sign, read the longest run of decimal
digits, and yield NaN (`none`) when that run is empty. -/
def parseIntJS (s : String) : Option Int :=
  let cs := s.data.dropWhile (fun c => c.isWhitespace)
  let signed : Bool × List Char :=
    match cs with
    | '-' :: rest => (true, rest)
    | '+' :: rest => (false, rest)
    | _ => (false, cs)
  let ds := leadingDigits signed.2
  if ds.isEmpty then none
  else if signed.1 then some (-(digitsToNat ds : Int))
  else some (digitsToNat ds)

/-- `horasLiquidas?.split(' ')[0] || '0'`: the first space-separated
token, with the empty string (the only falsy string) replaced by "0". -/
def horasToken (horasLiquidas : String) : String :=
  let tok := firstSpaceToken horasLiquidas
  if tok == "" then "0" else tok

/-- `parseInt(plan.formData.horasLiquidas?.split(' ')[0] || '0')`;
`none` is NaN. -/
def hoursPerDayOf (p : StoredStudyPlan) : Option Int :=
  parseIntJS (horasToken p.formData.horasLiquidas)

/-- `completedTasks * (hoursPerDay / 5)` for one plan; NaN-propagating
(note `0 * NaN` is NaN in JavaScript, hence `Option.map`). -/
def hoursStudiedOf (p : StoredStudyPlan) : Option ℚ :=
  (hoursPerDayOf p).map
    (fun (h : Int) => (p.completedTasks.length : ℚ) * ((h : ℚ) / 5))

/-- JavaScript `Math.round`: floor of `x + 1/2` (round half up). -/
def jsRound (q : ℚ) : Int := ⌊q + 1 / 2⌋

/-- `Math.round(x * 10) / 10` — round to one decimal place. -/
def round1 (q : ℚ) : ℚ := (jsRound (q * 10) : ℚ) / 10

/-- The `reduce` computing a plan's task denominator: rest days add 0,
special days 3, other days 5. -/
def totalTasksOf (p : StoredStudyPlan) : Nat :=
  p.plans.foldl
    (fun acc dayPlan =>
      if dayPlan.isRestDay then acc
      else acc + (if dayPlan.isSpecialDay then 3 else 5)) 0

/-- Per-plan progress percentage:
`totalTasks > 0 ? completedTasks / totalTasks * 100 : 0`. -/
def planProgress (p : StoredStudyPlan) : ℚ :=
  if 0 < totalTasksOf p then
    ((p.completedTasks.length : ℚ) / (totalTasksOf p : ℚ)) * 100
  else 0

/-- The record returned by `getStats()`. `totalHoursStudied` is
`Option ℚ` because the hours computation can produce NaN. -/
structure Stats where
  totalPlans : Nat
  activePlans : Nat
  totalHoursStudied : Option ℚ
  totalSubjects : Nat
  averageProgress : Int
deriving DecidableEq, Repr

/-- NaN-propagating running sum used for `totalHours`. -/
def addHours (acc : Option ℚ) (h : Option ℚ) : Option ℚ :=
  match acc, h with
  | some a, some b => some (a + b)
  | _, _ => none

/-- `getStats()`: early all-zero return on an empty store, otherwise one
pass accumulating progress, hours and the distinct-subject set. -/
def getStats (s : StoreState) : Stats :=
  let plans := getAllPlans s
  if plans.isEmpty then
    { totalPlans := 0, activePlans := 0, totalHoursStudied := some 0,
      totalSubjects := 0, averageProgress := 0 }
  else
    let totalProgress : ℚ :=
      plans.foldl (fun acc p => acc + planProgress p) 0
    let totalHours : Option ℚ :=
      plans.foldl (fun acc p => addHours acc (hoursStudiedOf p)) (some 0)
    let allSubjects :=
      (plans.foldl (fun acc p => acc ++ p.formData.disciplinasDificuldade)
        []).dedup
    { totalPlans := plans.length, activePlans := plans.length,
      totalHoursStudied := totalHours.map round1,
      totalSubjects := allSubjects.length,
      averageProgress := jsRound (totalProgress / (plans.length : ℚ)) }

/-!
Spec-side definitions (refinement targets). These follow the WORDS of
the specification, to be compared with the code-derived definitions
above.
-/

/-- Modelled from the spec (claim C2): "`hoursPerDay` is parsed as the
leading integer token of `formData.horasLiquidas` (defaults to 0 if
unparseable)". -/
def specHoursPerDay (p : StoredStudyPlan) : Int :=
  (parseIntJS (horasToken p.formData.horasLiquidas)).getD 0

/-- Modelled from the spec (claim C2): "Hours studied per plan =
`completedTasks.length × (hoursPerDay / 5)` … summed across plans and
rounded to one decimal place". Always a rational number, never NaN. -/
def specTotalHoursStudied (plans : List StoredStudyPlan) : ℚ :=
  round1 (plans.foldl
    (fun acc p =>
      acc + (p.completedTasks.length : ℚ) * ((specHoursPerDay p : ℚ) / 5))
    0)

/-- Modelled from the spec (claim C8): the per-day task-slot
contribution, "0 if `isRestDay`, else 3 if `isSpecialDay`, else 5". -/
def specDayScore (d : DayPlan) : Nat :=
  if d.isRestDay then 0 else if d.isSpecialDay then 3 else 5

/-!
Call sequences and reachable states.
-/

/-- One `savePlanSync` invocation: its argument plus the values the two
`Date.now()` / `Math.random()` call sites observe. -/
structure SaveCall where
  data : PlanData
  time : Nat
  rand : String
  ta : Nat
  ra : String
deriving DecidableEq, Repr

/-- A sequence of `savePlanSync` calls, run left to right. -/
def saveSeq (calls : List SaveCall) (s : StoreState) : StoreState :=
  calls.foldl (fun st c => (savePlanSync c.data c.time c.rand c.ta c.ra st).1) s

/-- One `logActivity` invocation with the values its `Date.now()` /
`Math.random()` call sites observe. -/
structure LogCall where
  type : ActivityType
  planTitle : String
  description : String
  time : Nat
  rand : String
deriving DecidableEq, Repr

/-- The entry a `LogCall` persists. -/
def mkLoggedEntry (c : LogCall) : ActivityEntry :=
  { id := genActivityId c.time c.rand, type := c.type,
    planTitle := c.planTitle, timestamp := c.time,
    description := c.description }

/-- A sequence of `logActivity` calls, run left to right. -/
def logSeq (calls : List LogCall) (s : StoreState) : StoreState :=
  calls.foldl
    (fun st c => logActivity c.type c.planTitle c.description c.time c.rand st) s

/-- `Reach tm s`: store state `s` is reachable from the pristine store
by `savePlan`/`savePlanSync`/`updatePlan`/`updatePlanSync`/
`updateCompletedTasks`/`deletePlan` calls whose `Date.now()` readings
are non-decreasing and never exceed `tm`, and whose update arguments
never carry a `createdAt` field (the restriction under which the
`updatedAt ≥ createdAt` invariant actually holds — see
`updatePlanSync_createdAt_override_cex` for why it is needed). -/
inductive Reach : Nat → StoreState → Prop where
  | init : Reach 0 initState
  | tick {tm s} (t : Nat) : Reach tm s → tm ≤ t → Reach t s
  | save {tm s} (d : PlanData) (t : Nat) (r : String) (ta : Nat)
      (ra : String) : Reach tm s → tm ≤ t →
      Reach t (savePlanSync d t r ta ra s).1
  | saveAsync {tm s} (d : PlanData) (t : Nat) (r : String) (ta : Nat)
      (ra : String) (remote : Except Unit Unit) : Reach tm s → tm ≤ t →
      Reach t (savePlan d t r ta ra remote s).1
  | update {tm s} (id : String) (u : PlanUpdates) (t ta1 ta2 : Nat)
      (ra1 ra2 : String) (remote : Except Unit Unit) : Reach tm s →
      tm ≤ t → u.createdAt = none →
      Reach t (updatePlan id u t ta1 ta2 ra1 ra2 remote s).1
  | updateSync {tm s} (id : String) (u : PlanUpdates) (t ta1 ta2 : Nat)
      (ra1 ra2 : String) : Reach tm s → tm ≤ t → u.createdAt = none →
      Reach t (updatePlanSync id u t ta1 ta2 ra1 ra2 s).1
  | updateTasks {tm s} (planId : String) (tasks : List String)
      (t ta1 ta2 : Nat) (ra1 ra2 : String) : Reach tm s → tm ≤ t →
      Reach t (updateCompletedTasks planId tasks t ta1 ta2 ra1 ra2 s).1
  | del {tm s} (id : String) (remote : Except Unit Unit) : Reach tm s →
      Reach tm (deletePlan id remote s).1

/-!
Concrete fixtures used by counterexamples and witnesses.
-/

/-- A representative `formData` snapshot (`horasLiquidas` parses to 4). -/
def exFormData : FormData :=
  { concurso := "TJ-CE", cargo := "Analista", horasLiquidas := "4 horas",
    disciplinasDificuldade := ["Portugues", "Direito"],
    plataformaEstudo := "web", tempoEstudo := "6 meses" }

/-- Representative plan data: one normal day, one special day, one rest
day (task denominator 5 + 3 + 0 = 8), no completed tasks yet. -/
def exPlanData : PlanData :=
  { title := "Plano TJ", concurso := "TJ-CE", cargo := "Analista",
    totalDays := 3, completedTasks := [],
    plans := [{ isRestDay := false, isSpecialDay := false },
              { isRestDay := false, isSpecialDay := true },
              { isRestDay := true, isSpecialDay := false }],
    formData := exFormData }

/-- The stored form of `exPlanData` saved at time 0 with suffix "r0":
its id is `plan_0_r0`. -/
def exPlan : StoredStudyPlan := mkNewPlan exPlanData 0 "r0"

/-- A store holding exactly `exPlan`, with an empty activity log. -/
def exState : StoreState := { plans := some [exPlan], activity := [] }

/-- An update that only grows `completedTasks` from 0 to 1 entries. -/
def exTaskUpdate : PlanUpdates := { completedTasks := some ["t1"] }

/-- A plan whose `horasLiquidas` leading token ("abc") has no digits, so
`parseInt` yields NaN; it has one completed task. -/
def exPlanNaN : StoredStudyPlan :=
  { exPlan with
    formData := { exFormData with horasLiquidas := "abc horas" },
    completedTasks := ["t1"] }

/-- A store holding exactly `exPlanNaN`. -/
def exStateNaN : StoreState := { plans := some [exPlanNaN], activity := [] }

/-- The store after `savePlanSync exPlanData` at time 0. -/
def exSaved : StoreState := (savePlanSync exPlanData 0 "r0" 0 "ra" initState).1

/-- `exSaved` after an `updatePlanSync` at time 1 whose updates include
`createdAt := 100` — a legal `Partial<StoredStudyPlan>` argument. -/
def exOverridden : StoreState :=
  (updatePlanSync "plan_0_r0" { createdAt := some 100 } 1 1 1 "rb" "rc"
    exSaved).1

/-- A save call observing time 5 and random suffix "abc". -/
def exCallA : SaveCall := ⟨exPlanData, 5, "abc", 5, "x"⟩

/-- A save call observing the same time 5 but suffix "xyz". -/
def exCallB : SaveCall := ⟨exPlanData, 5, "xyz", 6, "y"⟩

/-- A representative `logActivity` call. -/
def exLogCall : LogCall := ⟨ActivityType.created, "Plano TJ", "criado", 7, "z"⟩

/-- The effect of either update variant on the stored plan list alone
(both variants write `plans.set index (applyUpdates … now)` when the id
is found and leave the list alone otherwise; they differ only in
activity logging). -/
def plansAfterUpdate (id : String) (u : PlanUpdates) (t : Nat)
    (l : List StoredStudyPlan) : List StoredStudyPlan :=
  let i := l.findIdx (fun plan => plan.id == id)
  if h : i < l.length then l.set i (applyUpdates (l.get ⟨i, h⟩) u t)
  else l

/-!
Generic helper lemmas.
-/

/-- Truncating after an append absorbs an inner truncation to the same
length. -/
lemma take_append_take {α : Type} (a l : List α) (n : Nat) :
    (a ++ l.take n).take n = (a ++ l).take n := by
  rw [List.take_append_eq_append_take, List.take_append_eq_append_take,
    List.take_take]
  congr 1
  exact congrArg l.take (Nat.min_eq_left (Nat.sub_le n a.length))

/-- `find?` returns the first match: the list splits around the found
element with no earlier match. -/
lemma find?_first_match {α : Type} {p : α → Bool} {l : List α} {x : α}
    (h : l.find? p = some x) :
    p x = true ∧ ∃ l1 l2, l = l1 ++ x :: l2 ∧ ∀ q ∈ l1, p q = false := by
  induction l with
  | nil => simp at h
  | cons a as ih =>
    cases hp : p a with
    | true =>
      rw [List.find?_cons_of_pos _ hp] at h
      cases h
      exact ⟨hp, [], as, rfl, by simp⟩
    | false =>
      rw [List.find?_cons_of_neg _ (by simp [hp])] at h
      obtain ⟨hx, l1, l2, heq, hall⟩ := ih h
      refine ⟨hx, a :: l1, l2, by rw [heq]; rfl, ?_⟩
      intro q hq
      rcases List.mem_cons.mp hq with hq | hq
      · rw [hq]; exact hp
      · exact hall q hq

/-- Splitting at a separator absent from both prefixes is unambiguous. -/
lemma append_sep_inj {α : Type} {c : α} :
    ∀ {l1 l2 m1 m2 : List α}, c ∉ l1 → c ∉ l2 →
    l1 ++ c :: m1 = l2 ++ c :: m2 → l1 = l2 ∧ m1 = m2 := by
  intro l1
  induction l1 with
  | nil =>
    intro l2 m1 m2 _ h2 h
    cases l2 with
    | nil => simpa using h
    | cons b bs =>
      rw [List.nil_append, List.cons_append, List.cons.injEq] at h
      exact absurd (h.1 ▸ List.mem_cons_self b bs) h2
  | cons a as ih =>
    intro l2 m1 m2 h1 h2 h
    cases l2 with
    | nil =>
      rw [List.nil_append, List.cons_append, List.cons.injEq] at h
      exact absurd (h.1 ▸ List.mem_cons_self a as) h1
    | cons b bs =>
      rw [List.cons_append, List.cons_append, List.cons.injEq] at h
      have hab := h.1
      have hrec := ih (fun hc => h1 (List.mem_cons_of_mem a hc))
        (fun hc => h2 (List.mem_cons_of_mem b hc)) h.2
      exact ⟨by rw [hab, hrec.1], hrec.2⟩

/-- A left fold of `+ g x` is the initial value plus the mapped sum. -/
lemma foldl_add_map {α : Type} (g : α → ℚ) :
    ∀ (l : List α) (a : ℚ),
    l.foldl (fun acc x => acc + g x) a = a + (l.map g).sum := by
  intro l
  induction l with
  | nil => intro a; simp
  | cons x xs ih =>
    intro a
    rw [List.foldl_cons, ih, List.map_cons, List.sum_cons]
    ring

/-- Same, for `Nat`-valued task counting with the rest-day guard. -/
lemma foldl_dayTasks (l : List DayPlan) :
    ∀ a : Nat,
    l.foldl
      (fun acc dayPlan =>
        if dayPlan.isRestDay then acc
        else acc + (if dayPlan.isSpecialDay then 3 else 5)) a
      = a + (l.map specDayScore).sum := by
  induction l with
  | nil => intro a; simp
  | cons d ds ih =>
    intro a
    rw [List.foldl_cons, List.map_cons, List.sum_cons]
    cases hr : d.isRestDay <;> cases hs : d.isSpecialDay <;>
      simp [specDayScore, hr, hs, ih] <;> omega

/-!
Decimal rendering (`Nat.repr`): digits and injectivity.
-/

/-- Value of a fold starting from `a`, in terms of `digitsToNat`. -/
lemma digitsToNat_aux (l : List Char) :
    ∀ a : Nat,
    l.foldl (fun acc c => 10 * acc + (c.toNat - 48)) a
      = a * 10 ^ l.length + digitsToNat l := by
  induction l with
  | nil => intro a; simp [digitsToNat]
  | cons c cs ih =>
    intro a
    have hc : digitsToNat (c :: cs)
        = (10 * 0 + (c.toNat - 48)) * 10 ^ cs.length + digitsToNat cs := by
      rw [show digitsToNat (c :: cs)
          = cs.foldl (fun acc c => 10 * acc + (c.toNat - 48))
            (10 * 0 + (c.toNat - 48)) from rfl]
      exact ih _
    rw [List.foldl_cons, ih, List.length_cons, hc]
    ring

/-- The ten decimal digit characters. -/
lemma digitChar_isDigit : ∀ k : Nat, k < 10 →
    (Nat.digitChar k).isDigit = true := by decide

/-- Their numeric values. -/
lemma digitChar_val : ∀ k : Nat, k < 10 →
    (Nat.digitChar k).toNat - 48 = k := by decide

/-- `Nat.toDigitsCore` prepends the base-10 digits of `n`: reading them
back with `digitsToNat` recovers `n` shifted past the accumulator. -/
lemma toDigitsCore_val :
    ∀ (fuel n : Nat) (ds : List Char), n < fuel →
    digitsToNat (Nat.toDigitsCore 10 fuel n ds)
      = n * 10 ^ ds.length + digitsToNat ds := by
  intro fuel
  induction fuel with
  | zero => intro n ds h; exact absurd h (Nat.not_lt_zero n)
  | succ f ih =>
    intro n ds h
    rw [Nat.toDigitsCore]
    have hv : digitsToNat (Nat.digitChar (n % 10) :: ds)
        = (n % 10) * 10 ^ ds.length + digitsToNat ds := by
      rw [show digitsToNat (Nat.digitChar (n % 10) :: ds)
          = ds.foldl (fun acc c => 10 * acc + (c.toNat - 48))
            (10 * 0 + ((Nat.digitChar (n % 10)).toNat - 48)) from rfl]
      rw [digitsToNat_aux, digitChar_val (n % 10) (Nat.mod_lt n (by norm_num))]
      ring
    by_cases hn : n / 10 = 0
    · rw [if_pos hn]
      have hlt : n < 10 := by omega
      rw [hv, Nat.mod_eq_of_lt hlt]
    · rw [if_neg hn]
      have hf : n / 10 < f := by omega
      have key : n / 10 * (10 ^ ds.length * 10) + n % 10 * 10 ^ ds.length
          = n * 10 ^ ds.length := by
        have hmod : 10 * (n / 10) + n % 10 = n := Nat.div_add_mod n 10
        calc n / 10 * (10 ^ ds.length * 10) + n % 10 * 10 ^ ds.length
            = (10 * (n / 10) + n % 10) * 10 ^ ds.length := by ring
          _ = n * 10 ^ ds.length := by rw [hmod]
      rw [ih (n / 10) (Nat.digitChar (n % 10) :: ds) hf, hv, List.length_cons,
        pow_succ, ← key]
      ring

/-- Reading back the decimal rendering recovers the number. -/
lemma toDigits_digitsToNat (n : Nat) :
    digitsToNat (Nat.toDigits 10 n) = n := by
  have h := toDigitsCore_val (n + 1) n [] (Nat.lt_succ_self n)
  simpa [Nat.toDigits, digitsToNat] using h

/-- `Nat.repr` is injective. -/
lemma natRepr_injective {m n : Nat} (h : Nat.repr m = Nat.repr n) :
    m = n := by
  have hd : Nat.toDigits 10 m = Nat.toDigits 10 n := by
    have := congrArg String.data h
    simpa [Nat.repr, List.asString] using this
  rw [← toDigits_digitsToNat m, ← toDigits_digitsToNat n, hd]

/-- Every character `Nat.toDigitsCore` emits is a decimal digit. -/
lemma toDigitsCore_isDigit :
    ∀ (fuel n : Nat) (ds : List Char), (∀ c ∈ ds, c.isDigit = true) →
    ∀ c ∈ Nat.toDigitsCore 10 fuel n ds, c.isDigit = true := by
  intro fuel
  induction fuel with
  | zero => intro n ds hds; exact hds
  | succ f ih =>
    intro n ds hds c hc
    rw [Nat.toDigitsCore] at hc
    have hdig : ∀ x ∈ Nat.digitChar (n % 10) :: ds, x.isDigit = true := by
      intro x hx
      rcases List.mem_cons.mp hx with hx | hx
      · rw [hx]; exact digitChar_isDigit (n % 10) (Nat.mod_lt n (by norm_num))
      · exact hds x hx
    by_cases hn : n / 10 = 0
    · rw [if_pos hn] at hc
      exact hdig c hc
    · rw [if_neg hn] at hc
      exact ih (n / 10) (Nat.digitChar (n % 10) :: ds) hdig c hc

/-- The decimal rendering never contains an underscore. -/
lemma toDigits_no_underscore (n : Nat) : '_' ∉ Nat.toDigits 10 n := by
  intro h
  have := toDigitsCore_isDigit (n + 1) n [] (by simp) '_' h
  simp [Char.isDigit] at this

/-- The id construction `plan_${t}_${r}` is injective in the pair
`(t, r)`: the prefix is fixed and the decimal time contains no
underscore, so the first underscore after the prefix delimits it. -/
lemma genId_inj {t1 t2 : Nat} {r1 r2 : String}
    (h : genId t1 r1 = genId t2 r2) : t1 = t2 ∧ r1 = r2 := by
  have hdata := congrArg String.data h
  simp only [genId, String.data_append] at hdata
  simp only [List.append_assoc, List.singleton_append] at hdata
  have hcancel := List.append_cancel_left hdata
  have hrd : (Nat.repr t1).data = Nat.toDigits 10 t1 := by
    simp [Nat.repr, List.asString]
  have hrd2 : (Nat.repr t2).data = Nat.toDigits 10 t2 := by
    simp [Nat.repr, List.asString]
  rw [hrd, hrd2] at hcancel
  have hsplit := append_sep_inj (toDigits_no_underscore t1)
    (toDigits_no_underscore t2) hcancel
  refine ⟨natRepr_injective ?_, String.ext hsplit.2⟩
  exact congrArg List.asString hsplit.1

/-!
Shape lemmas for the storage operations.
-/

/-- Logging never touches the plan partition. -/
lemma getAllPlans_logActivity (ty : ActivityType) (pt d : String)
    (t : Nat) (r : String) (s : StoreState) :
    getAllPlans (logActivity ty pt d t r s) = getAllPlans s := rfl

/-- `savePlanSync` appends exactly the new record. -/
lemma getAllPlans_savePlanSync (d : PlanData) (t : Nat) (r : String)
    (ta : Nat) (ra : String) (s : StoreState) :
    getAllPlans (savePlanSync d t r ta ra s).1
      = getAllPlans s ++ [mkNewPlan d t r] := rfl

/-- Both update variants act on the plan list as `plansAfterUpdate`. -/
lemma updatePlanSync_getAllPlans (id : String) (u : PlanUpdates)
    (t ta1 ta2 : Nat) (ra1 ra2 : String) (s : StoreState) :
    getAllPlans (updatePlanSync id u t ta1 ta2 ra1 ra2 s).1
      = plansAfterUpdate id u t (getAllPlans s) := by
  unfold updatePlanSync plansAfterUpdate
  dsimp only
  split
  · split <;> (try split) <;> rfl
  · rfl

/-- Likewise for the async variant. -/
lemma updatePlan_getAllPlans (id : String) (u : PlanUpdates)
    (t ta1 ta2 : Nat) (ra1 ra2 : String) (remote : Except Unit Unit)
    (s : StoreState) :
    getAllPlans (updatePlan id u t ta1 ta2 ra1 ra2 remote s).1
      = plansAfterUpdate id u t (getAllPlans s) := by
  unfold updatePlan plansAfterUpdate
  dsimp only
  split
  · split <;> (try split) <;> rfl
  · rfl

/-- Membership after `plansAfterUpdate`: either an old plan survives
unchanged, or it is the merged record of an old plan. -/
lemma mem_plansAfterUpdate {id : String} {u : PlanUpdates} {t : Nat}
    {l : List StoredStudyPlan} {p : StoredStudyPlan}
    (h : p ∈ plansAfterUpdate id u t l) :
    p ∈ l ∨ ∃ q ∈ l, p = applyUpdates q u t := by
  unfold plansAfterUpdate at h
  dsimp only at h
  split at h
  · rcases List.mem_or_eq_of_mem_set h with h' | h'
    · exact Or.inl h'
    · exact Or.inr ⟨_, List.get_mem _ _ _, h'⟩
  · exact Or.inl h

/-- An update failure leaves the state untouched, and the success bit is
exactly "the id was found". -/
lemma updatePlanSync_failure (id : String) (u : PlanUpdates)
    (t ta1 ta2 : Nat) (ra1 ra2 : String) (s : StoreState) :
    ((updatePlanSync id u t ta1 ta2 ra1 ra2 s).2 = false →
      (updatePlanSync id u t ta1 ta2 ra1 ra2 s).1 = s)
    ∧ ((updatePlanSync id u t ta1 ta2 ra1 ra2 s).2 = true ↔
      (getAllPlans s).findIdx (fun plan => plan.id == id)
        < (getAllPlans s).length) := by
  unfold updatePlanSync
  dsimp only
  split
  · next h =>
    refine ⟨fun hf => ?_, fun _ => h, fun _ => rfl⟩
    simp at hf
  · next h =>
    refine ⟨fun _ => rfl, fun hf => ?_, fun hc => absurd hc h⟩
    simp at hf

/-- `updateCompletedTasks` acts on the plan list exactly as the
underlying `updatePlanSync` (the defensive re-serialization is a
no-op at this level). -/
lemma updateCompletedTasks_getAllPlans (planId : String)
    (tasks : List String) (t ta1 ta2 : Nat) (ra1 ra2 : String)
    (s : StoreState) :
    getAllPlans (updateCompletedTasks planId tasks t ta1 ta2 ra1 ra2 s).1
      = if planId == "" then getAllPlans s
        else plansAfterUpdate planId { completedTasks := some tasks } t
          (getAllPlans s) := by
  unfold updateCompletedTasks
  by_cases hid : planId == ""
  · simp [hid]
  · rw [if_neg hid, if_neg hid]
    dsimp only
    split
    · next hsucc =>
      rw [show getAllPlans
          { (updatePlanSync planId { completedTasks := some tasks }
              t ta1 ta2 ra1 ra2 s).1 with
            plans := some (getAllPlans (updatePlanSync planId
              { completedTasks := some tasks } t ta1 ta2 ra1 ra2 s).1) }
          = getAllPlans (updatePlanSync planId
              { completedTasks := some tasks } t ta1 ta2 ra1 ra2 s).1
        from rfl]
      exact updatePlanSync_getAllPlans _ _ _ _ _ _ _ _
    · exact updatePlanSync_getAllPlans _ _ _ _ _ _ _ _

/-- Deleting only ever removes plans. -/
lemma deletePlan_subset (id : String) (remote : Except Unit Unit)
    (s : StoreState) :
    ∀ p ∈ getAllPlans (deletePlan id remote s).1, p ∈ getAllPlans s := by
  intro p hp
  unfold deletePlan deleteFromLocalStorage at hp
  dsimp only at hp
  split at hp
  · exact hp
  · split at hp
    · exact hp
    · next l heq =>
      split at hp
      · rw [show getAllPlans { s with plans := some (l.eraseIdx
            (l.findIdx (fun plan => plan.id == jsTrim id))) }
            = l.eraseIdx (l.findIdx (fun plan => plan.id == jsTrim id))
          from rfl] at hp
        rw [show getAllPlans s = l by rw [getAllPlans, heq]; rfl]
        exact List.eraseIdx_subset _ _ hp
      · exact hp

/-- After one `logActivity`, the persisted log is the new entry consed
onto the old log, truncated to 50. -/
lemma logActivity_activity (c : LogCall) (s : StoreState) :
    (logActivity c.type c.planTitle c.description c.time c.rand s).activity
      = (mkLoggedEntry c :: s.activity).take 50 := rfl

/-- Running a sequence of `logActivity` calls over a capped log yields
the reversed entries prepended to the old log, truncated to 50. -/
lemma logSeq_activity (calls : List LogCall) :
    ∀ s : StoreState, s.activity.length ≤ 50 →
    (logSeq calls s).activity
      = ((calls.map mkLoggedEntry).reverse ++ s.activity).take 50 := by
  induction calls with
  | nil =>
    intro s h
    rw [logSeq, List.foldl_nil, List.map_nil, List.reverse_nil,
      List.nil_append, List.take_of_length_le h]
  | cons c cs ih =>
    intro s h
    rw [show logSeq (c :: cs) s
        = logSeq cs (logActivity c.type c.planTitle c.description
            c.time c.rand s) from rfl]
    rw [ih _ (by rw [logActivity_activity]; exact List.length_take_le _ _)]
    rw [logActivity_activity, take_append_take, List.map_cons,
      List.reverse_cons, List.append_assoc, List.singleton_append]

/-- The head of the log after a call sequence is the entry of the last
call. -/
lemma logSeq_head (calls : List LogCall) :
    ∀ (s : StoreState) (c : LogCall), calls.getLast? = some c →
    (logSeq calls s).activity.head? = some (mkLoggedEntry c) := by
  induction calls with
  | nil => intro s c h; simp at h
  | cons c1 cs ih =>
    intro s c h
    cases cs with
    | nil =>
      simp only [List.getLast?_singleton, Option.some.injEq] at h
      subst h
      rfl
    | cons c2 cs2 =>
      rw [List.getLast?_cons_cons] at h
      exact ih _ c h

/-!
Claim theorems.
-/

/-- Claim C7: after `savePlan(data)` (or `savePlanSync(data)`) returns
an id `i`, `getAllPlans()` contains all previously existing records
unchanged plus exactly one new record whose fields equal `data` extended
with `id = i` and `createdAt = updatedAt` set to the creation time, and
a `created` activity entry has been logged (at index 0 of the log) —
independently of the remote outcome, since the remote write is caught. -/
theorem savePlan_local_durability (d : PlanData) (t : Nat) (r : String)
    (ta : Nat) (ra : String) (remote : Except Unit Unit)
    (s : StoreState) :
    (savePlan d t r ta ra remote s).2 = genId t r
    ∧ getAllPlans (savePlan d t r ta ra remote s).1
        = getAllPlans s
          ++ [{ id := genId t r, title := d.title, concurso := d.concurso,
                cargo := d.cargo, createdAt := t, updatedAt := t,
                totalDays := d.totalDays,
                completedTasks := d.completedTasks, plans := d.plans,
                formData := d.formData }]
    ∧ (getActivityLog (savePlan d t r ta ra remote s).1).head?
        = some { id := genActivityId ta ra,
                 type := ActivityType.created, planTitle := d.title,
                 timestamp := ta,
                 description := "Plano \"" ++ d.title ++ "\" foi criado" }
    ∧ savePlan d t r ta ra remote s = savePlanSync d t r ta ra s :=
  ⟨rfl, rfl, rfl, rfl⟩

/-- Claim C5: `loadFromSupabase` has exactly three behaviours — remote
success with a non-empty set overwrites the local plan partition
wholesale with that set and returns it; remote success with an empty
set returns it and leaves the store untouched; remote failure returns
the current local contents and leaves the store unchanged, with no
error propagated. -/
theorem loadFromSupabase_behaviours (ps : List StoredStudyPlan)
    (s : StoreState) :
    (ps ≠ [] → loadFromSupabase (Except.ok ps) s
      = (ps, { s with plans := some ps }))
    ∧ loadFromSupabase (Except.ok []) s = ([], s)
    ∧ (∀ e, loadFromSupabase (Except.error e) s = (getAllPlans s, s)) := by
  refine ⟨?_, rfl, fun e => rfl⟩
  intro h
  rw [loadFromSupabase, if_pos (List.length_pos.mpr h)]

/-- Witness for C5 at a concrete non-empty remote set. -/
theorem loadFromSupabase_behaviours_witness :
    loadFromSupabase (Except.ok [exPlan]) initState
      = ([exPlan], { initState with plans := some [exPlan] }) :=
  (loadFromSupabase_behaviours [exPlan] initState).1 (by simp)

/-- Claim C10: `getPlanById(id)` returns the first stored plan whose id
equals the argument — the store splits around the returned plan with no
earlier match — or `none` exactly when no stored plan has that id, and
it never modifies the store. -/
theorem getPlanById_spec (id : String) (s : StoreState) :
    (getPlanById id s).2 = s
    ∧ (∀ p, (getPlanById id s).1 = some p →
        p.id = id
        ∧ ∃ l1 l2, getAllPlans s = l1 ++ p :: l2 ∧ ∀ q ∈ l1, q.id ≠ id)
    ∧ ((getPlanById id s).1 = none ↔ ∀ p ∈ getAllPlans s, p.id ≠ id) := by
  refine ⟨rfl, ?_, ?_⟩
  · intro p hp
    obtain ⟨hpx, l1, l2, heq, hall⟩ := find?_first_match hp
    refine ⟨by simpa using hpx, l1, l2, heq, fun q hq => ?_⟩
    simpa using hall q hq
  · rw [show (getPlanById id s).1
        = (getAllPlans s).find? (fun plan => plan.id == id) from rfl,
      List.find?_eq_none]
    simp

/-- Witness for C10 at a concrete store. -/
theorem getPlanById_spec_witness :
    (getPlanById "plan_0_r0" exState).2 = exState
    ∧ exPlan.id = "plan_0_r0" := by
  have h := getPlanById_spec "plan_0_r0" exState
  exact ⟨h.1, (h.2.1 exPlan (by decide)).1⟩

/-- Claim C1 (code bug, concrete run): with a stored plan whose
`completedTasks` is empty and an update carrying one completed task,
`updatePlanSync` logs both entries (`updated` at read index 0,
`completed_task` at index 1) as the spec describes — but the async
`updatePlan`, which reads the "old" completed count from the already
overwritten `plans[index]` slot, never detects growth and logs only
`updated`. -/
theorem updatePlan_missing_completed_task_log :
    ((updatePlan "plan_0_r0" exTaskUpdate 1 2 3 "x" "y" (Except.ok ())
        exState).1.activity.map (fun a => a.type)
      = [ActivityType.updated])
    ∧ ((updatePlanSync "plan_0_r0" exTaskUpdate 1 2 3 "x" "y"
        exState).1.activity.map (fun a => a.type)
      = [ActivityType.updated, ActivityType.completed_task])
    ∧ (updatePlan "plan_0_r0" exTaskUpdate 1 2 3 "x" "y" (Except.ok ())
        exState).2 = true := by
  refine ⟨?_, ?_, rfl⟩ <;> rfl

/-- Claim C9: the activity log is a strict insertion-order ring buffer —
after any `logActivity` call its length is at most 50; a capped log
evolves under a call sequence into the reversed new entries prepended to
the old contents, truncated to 50 (newest first, oldest evicted); and
the head of the log is the entry of the most recent call. -/
theorem activityLog_retention (calls : List LogCall) (s : StoreState)
    (c0 : LogCall) :
    (getActivityLog (logActivity c0.type c0.planTitle c0.description
        c0.time c0.rand s)).length ≤ 50
    ∧ (s.activity.length ≤ 50 →
        getActivityLog (logSeq calls s)
          = ((calls.map mkLoggedEntry).reverse ++ getActivityLog s).take 50)
    ∧ (calls.getLast? = some c0 →
        (getActivityLog (logSeq calls s)).head? = some (mkLoggedEntry c0)) := by
  refine ⟨?_, fun h => logSeq_activity calls s h,
    fun h => logSeq_head calls s c0 h⟩
  rw [show getActivityLog (logActivity c0.type c0.planTitle c0.description
      c0.time c0.rand s) = (mkLoggedEntry c0 :: s.activity).take 50 from rfl]
  exact List.length_take_le _ _

/-- Witness for C9: logging 60 sequential activities from the pristine
store leaves at most 50 entries and the head is the 60th event. -/
theorem activityLog_retention_witness :
    (getActivityLog (logSeq (List.replicate 60 exLogCall) initState)).length ≤ 50
    ∧ (getActivityLog (logSeq (List.replicate 60 exLogCall) initState)).head?
        = some (mkLoggedEntry exLogCall) := by
  have h := activityLog_retention (List.replicate 60 exLogCall) initState exLogCall
  refine ⟨?_, h.2.2 (by decide)⟩
  rw [h.2.1 (by decide)]
  exact List.length_take_le _ _

/-- Rounding zero gives zero (`Math.round(0.5) = 1` plays no role at 0:
the floor of `1/2` is `0`). -/
lemma jsRound_zero : jsRound 0 = 0 := by
  rw [jsRound, zero_add]
  exact Int.floor_eq_zero_iff.mpr (by constructor <;> norm_num)

/-- Rounding zero to one decimal place gives zero. -/
lemma round1_zero : round1 0 = 0 := by
  rw [round1, show (0 : ℚ) * 10 = 0 by ring, jsRound_zero]
  norm_num

/-- When every plan's hours token parses, the NaN-propagating fold of
`getStats` computes the plain rational sum of the spec formula. -/
lemma hours_fold_some (l : List StoredStudyPlan) :
    ∀ a : ℚ, (∀ p ∈ l, (hoursPerDayOf p).isSome) →
    l.foldl (fun acc p => addHours acc (hoursStudiedOf p)) (some a)
      = some (l.foldl
          (fun acc p => acc + (p.completedTasks.length : ℚ)
            * ((specHoursPerDay p : ℚ) / 5)) a) := by
  induction l with
  | nil => intro a _; rfl
  | cons p ps ih =>
    intro a h
    have hp := h p (List.mem_cons_self p ps)
    obtain ⟨v, hv⟩ := Option.isSome_iff_exists.mp hp
    have hval : specHoursPerDay p = v := by
      rw [specHoursPerDay,
        show parseIntJS (horasToken p.formData.horasLiquidas) = some v
          from hv]
      rfl
    rw [List.foldl_cons, List.foldl_cons,
      show hoursStudiedOf p
        = some ((p.completedTasks.length : ℚ) * ((v : ℚ) / 5)) by
        rw [hoursStudiedOf, hv]; rfl,
      show addHours (some a)
          (some ((p.completedTasks.length : ℚ) * ((v : ℚ) / 5)))
        = some (a + (p.completedTasks.length : ℚ) * ((v : ℚ) / 5))
        from rfl,
      ih _ (fun q hq => h q (List.mem_cons_of_mem p hq)), hval]

/-- Claim C2 (amended): `totalHoursStudied` equals the spec formula —
Σ over plans of `completedTasks.length × (hoursPerDay / 5)` rounded to
one decimal place — provided every stored plan's hours token actually
parses (the `|| '0'` default already covers a missing or empty token, so
the proviso only excludes tokens like "abc" that `parseInt` turns into
NaN; see the counterexample for that case). -/
theorem getStats_totalHours (s : StoreState)
    (h : ∀ p ∈ getAllPlans s, (hoursPerDayOf p).isSome) :
    (getStats s).totalHoursStudied
      = some (specTotalHoursStudied (getAllPlans s)) := by
  rcases hl : getAllPlans s with _ | ⟨p, ps⟩
  · simp only [getStats, hl, List.isEmpty_nil, if_true]
    rw [show specTotalHoursStudied [] = 0 by
      rw [specTotalHoursStudied, List.foldl_nil]; exact round1_zero]
  · simp only [getStats, hl, List.isEmpty_cons, if_false]
    rw [hours_fold_some (p :: ps) 0 (by rw [← hl]; exact h)]
    rfl

/-- Claim C2 counterexample: on a store whose single plan has
`horasLiquidas = "abc horas"` the leading token parses to NaN, so the
code yields NaN (`none`) while the claimed formula (hoursPerDay
defaulting to 0 when unparseable) yields 0 — the claim's equation fails
and the result is an error value, not a number. -/
theorem getStats_totalHours_NaN_cex :
    (getStats exStateNaN).totalHoursStudied = none
    ∧ specTotalHoursStudied (getAllPlans exStateNaN) = 0
    ∧ (getStats exStateNaN).totalHoursStudied
        ≠ some (specTotalHoursStudied (getAllPlans exStateNaN)) := by
  have hnone : (getStats exStateNaN).totalHoursStudied = none := rfl
  refine ⟨hnone, ?_, by rw [hnone]; exact fun hcon => Option.noConfusion hcon⟩
  have hsp : specHoursPerDay exPlanNaN = 0 := by decide
  rw [show getAllPlans exStateNaN = [exPlanNaN] from rfl,
    specTotalHoursStudied, List.foldl_cons, List.foldl_nil,
    show (0 : ℚ) + (exPlanNaN.completedTasks.length : ℚ)
        * ((specHoursPerDay exPlanNaN : ℚ) / 5) = 0 by
      rw [hsp]; norm_num]
  exact round1_zero

/-- Witness for C2 (amended) at a concrete parseable store. -/
theorem getStats_totalHours_witness :
    (getStats exState).totalHoursStudied
      = some (specTotalHoursStudied (getAllPlans exState)) :=
  getStats_totalHours exState (by decide)

/-- Claim C8: the per-plan task denominator is the spec's per-day sum
(rest 0 / special 3 / normal 5); progress is `completed/denominator×100`
with 0 (not an error) on a zero denominator; `averageProgress` is the
rounded mean of the per-plan progress values and the empty store yields
all-zero aggregates; and progress lies in [0, 100] whenever the
completed count does not exceed the denominator. -/
theorem getStats_progress_spec (p : StoredStudyPlan) (s : StoreState) :
    totalTasksOf p = (p.plans.map specDayScore).sum
    ∧ planProgress p
        = (if (p.plans.map specDayScore).sum = 0 then 0
           else ((p.completedTasks.length : ℚ)
             / (((p.plans.map specDayScore).sum : Nat) : ℚ)) * 100)
    ∧ (getAllPlans s ≠ [] →
        (getStats s).averageProgress
          = jsRound (((getAllPlans s).map planProgress).sum
              / ((getAllPlans s).length : ℚ)))
    ∧ (getAllPlans s = [] →
        getStats s
          = { totalPlans := 0, activePlans := 0,
              totalHoursStudied := some 0, totalSubjects := 0,
              averageProgress := 0 })
    ∧ (p.completedTasks.length ≤ totalTasksOf p →
        0 ≤ planProgress p ∧ planProgress p ≤ 100) := by
  have hden : totalTasksOf p = (p.plans.map specDayScore).sum := by
    rw [totalTasksOf, foldl_dayTasks p.plans 0, Nat.zero_add]
  refine ⟨hden, ?_, ?_, ?_, ?_⟩
  · rw [planProgress, hden]
    by_cases hz : (p.plans.map specDayScore).sum = 0
    · rw [if_pos hz, if_neg (by omega)]
    · rw [if_neg hz, if_pos (by omega)]
  · intro hne
    rcases hl : getAllPlans s with _ | ⟨q, qs⟩
    · exact absurd hl hne
    · simp only [getStats, hl, List.isEmpty_cons, Bool.false_eq_true,
        if_false]
      rw [foldl_add_map planProgress (q :: qs) 0, zero_add]
  · intro hl
    simp only [getStats, hl, List.isEmpty_nil, if_true]
  · intro hle
    rw [planProgress]
    by_cases hz : 0 < totalTasksOf p
    · rw [if_pos hz]
      have hdpos : (0 : ℚ) < (totalTasksOf p : ℚ) := by
        exact_mod_cast hz
      have hc : (p.completedTasks.length : ℚ) ≤ (totalTasksOf p : ℚ) :=
        Nat.cast_le.mpr hle
      constructor
      · apply mul_nonneg _ (by norm_num)
        exact div_nonneg (Nat.cast_nonneg _) (le_of_lt hdpos)
      · calc (p.completedTasks.length : ℚ) / (totalTasksOf p : ℚ) * 100
            ≤ 1 * 100 := by
              apply mul_le_mul_of_nonneg_right _ (by norm_num)
              exact (div_le_one hdpos).mpr hc
          _ = 100 := one_mul 100
    · rw [if_neg hz]
      norm_num

/-- Witness for C8 at concrete stores (one-plan store and empty store). -/
theorem getStats_progress_spec_witness :
    ((getStats exState).averageProgress
      = jsRound (((getAllPlans exState).map planProgress).sum
          / ((getAllPlans exState).length : ℚ)))
    ∧ getStats initState
        = { totalPlans := 0, activePlans := 0,
            totalHoursStudied := some 0, totalSubjects := 0,
            averageProgress := 0 }
    ∧ (0 ≤ planProgress exPlan ∧ planProgress exPlan ≤ 100) := by
  have h1 := getStats_progress_spec exPlan exState
  have h2 := getStats_progress_spec exPlan initState
  exact ⟨h1.2.2.1 (by decide), h2.2.2.2.1 rfl, h1.2.2.2.2 (by decide)⟩

/-- Branch behaviour of the private `deleteFromLocalStorage` helper. -/
lemma deleteFromLocalStorage_spec (id0 : String) (s : StoreState) :
    (s.plans = none → deleteFromLocalStorage id0 s = (s, false))
    ∧ (∀ l, s.plans = some l →
        (¬ l.findIdx (fun plan => plan.id == id0) < l.length →
          deleteFromLocalStorage id0 s = (s, false))
        ∧ (l.findIdx (fun plan => plan.id == id0) < l.length →
          deleteFromLocalStorage id0 s
            = ({ s with plans := some (l.eraseIdx
                (l.findIdx (fun plan => plan.id == id0))) }, true))) := by
  refine ⟨fun hn => ?_, fun l hl => ⟨fun hnf => ?_, fun hf => ?_⟩⟩
  · simp only [deleteFromLocalStorage, hn]
  · simp only [deleteFromLocalStorage, hl]
    rw [if_neg hnf]
  · simp only [deleteFromLocalStorage, hl]
    rw [if_pos hf]

/-- Claim C6: `deletePlan(id)` returns `true` iff the trimmed id is
non-empty and equals the id of some stored plan; on success the store
equals the prior store with exactly the first matching record removed;
on failure the store is unchanged; and the remote outcome never affects
the result (local deletion alone decides success). -/
theorem deletePlan_spec (id : String) (remote : Except Unit Unit)
    (s : StoreState) :
    ((deletePlan id remote s).2 = true ↔
      jsTrim id ≠ "" ∧ ∃ p ∈ getAllPlans s, p.id = jsTrim id)
    ∧ ((deletePlan id remote s).2 = false →
        (deletePlan id remote s).1 = s)
    ∧ (∀ l, s.plans = some l → (deletePlan id remote s).2 = true →
        (deletePlan id remote s).1
          = { s with plans := some (l.eraseIdx
              (l.findIdx (fun plan => plan.id == jsTrim id))) }
        ∧ (∃ p', l.get? (l.findIdx (fun plan => plan.id == jsTrim id))
              = some p' ∧ p'.id = jsTrim id)
        ∧ (∀ j p', j < l.findIdx (fun plan => plan.id == jsTrim id) →
            l.get? j = some p' → p'.id ≠ jsTrim id))
    ∧ (∀ remote2, deletePlan id remote2 s = deletePlan id remote s) := by
  by_cases ht : jsTrim id == ""
  · have h2 : deletePlan id remote s = (s, false) := by
      rw [deletePlan, if_pos ht]
    refine ⟨?_, fun _ => by rw [h2], fun l hl hsucc => ?_, fun remote2 => by
      rw [h2, deletePlan, if_pos ht]⟩
    · rw [h2]
      constructor
      · intro hcon; exact absurd hcon (by simp)
      · rintro ⟨hne, -⟩
        exact absurd (by simpa using ht) hne
    · rw [h2] at hsucc
      exact absurd hsucc (by simp)
  · have hne : jsTrim id ≠ "" := by simpa using ht
    have hd : deletePlan id remote s = deleteFromLocalStorage (jsTrim id) s := by
      rw [deletePlan, if_neg ht]
    have hd2 : ∀ remote2, deletePlan id remote2 s
        = deleteFromLocalStorage (jsTrim id) s := fun remote2 => by
      rw [deletePlan, if_neg ht]
    rcases hsp : s.plans with _ | l
    · have h2 : deleteFromLocalStorage (jsTrim id) s = (s, false) :=
        (deleteFromLocalStorage_spec (jsTrim id) s).1 hsp
      have hgl : getAllPlans s = [] := by rw [getAllPlans, hsp]; rfl
      refine ⟨?_, fun _ => by rw [hd, h2], fun l hl => ?_, fun remote2 => by
        rw [hd2 remote2, hd]⟩
      · rw [hd, h2, hgl]
        simp
      · exact absurd hl (by simp)
    · have hgl : getAllPlans s = l := by rw [getAllPlans, hsp]; rfl
      have haux := (deleteFromLocalStorage_spec (jsTrim id) s).2 l hsp
      by_cases hf : l.findIdx (fun plan => plan.id == jsTrim id) < l.length
      · have h2 := haux.2 hf
        refine ⟨?_, fun hfalse => ?_, fun l2 hl2 _ => ?_, fun remote2 => by
          rw [hd2 remote2, hd]⟩
        · rw [hd, h2]
          simp only [true_iff, iff_true]
          refine ⟨hne, ?_⟩
          obtain ⟨x, hx, hpx⟩ := List.findIdx_lt_length.mp hf
          exact ⟨x, hgl ▸ hx, by simpa using hpx⟩
        · rw [hd, h2] at hfalse
          exact absurd hfalse (by simp)
        · obtain rfl : l = l2 := by injection hl2
          refine ⟨by rw [hd, h2], ?_, ?_⟩
          · refine ⟨l.get ⟨_, hf⟩, List.get?_eq_get hf, ?_⟩
            have hpred := @List.findIdx_getElem _
              (fun plan => plan.id == jsTrim id) l hf
            simpa using hpred
          · intro j p' hj hget
            have hjl : j < l.length :=
              lt_of_lt_of_le hj (List.findIdx_le_length _)
            rw [List.get?_eq_get hjl] at hget
            have hp' : l.get ⟨j, hjl⟩ = p' := by injection hget
            have hfalse : ((l.get ⟨j, hjl⟩).id == jsTrim id) = false :=
              List.not_of_lt_findIdx hj
            intro hcon
            rw [hp', hcon] at hfalse
            simp at hfalse
      · have h2 := haux.1 hf
        refine ⟨?_, fun _ => by rw [hd, h2], fun l2 hl2 hsucc => ?_,
          fun remote2 => by rw [hd2 remote2, hd]⟩
        · rw [hd, h2]
          simp only [Bool.false_eq_true, false_iff]
          rintro ⟨-, p, hp, hpid⟩
          exact hf (List.findIdx_lt_length.mpr ⟨p, hgl ▸ hp, by simpa using hpid⟩)
        · rw [hd, h2] at hsucc
          exact absurd hsucc (by simp)

/-- Witness for C6 at concrete inputs: a whitespace-padded matching id
succeeds (despite a failing remote delete) and removes the record; a
non-matching id fails and leaves the store untouched. -/
theorem deletePlan_spec_witness :
    (deletePlan "  plan_0_r0  " (Except.error ()) exState).2 = true
    ∧ (deletePlan "zz" (Except.ok ()) exState).1 = exState
    ∧ (deletePlan "  plan_0_r0  " (Except.error ()) exState).1
        = { exState with plans := some [] } := by
  have h1 := deletePlan_spec "  plan_0_r0  " (Except.error ()) exState
  have h2 := deletePlan_spec "zz" (Except.ok ()) exState
  have hsucc : (deletePlan "  plan_0_r0  " (Except.error ()) exState).2
      = true := h1.1.mpr ⟨by decide, exPlan, by decide, by decide⟩
  refine ⟨hsucc, h2.2.1 (by decide), ?_⟩
  have h3 := (h1.2.2.1 [exPlan] rfl hsucc).1
  rw [h3]
  decide

/-- The timestamp invariant along restricted call sequences (see
`Reach`): every stored plan has `createdAt ≤ updatedAt`, and no
timestamp exceeds the clock bound. -/
lemma reach_bounds :
    ∀ tm s, Reach tm s →
    ∀ p ∈ getAllPlans s, p.createdAt ≤ p.updatedAt ∧ p.updatedAt ≤ tm := by
  intro tm s h
  induction h with
  | init =>
    intro p hp
    exact absurd hp (by simp [initState, getAllPlans])
  | tick t h hle ih =>
    intro p hp
    exact ⟨(ih p hp).1, le_trans (ih p hp).2 hle⟩
  | save d t r ta ra h hle ih =>
    intro p hp
    rw [getAllPlans_savePlanSync] at hp
    rcases List.mem_append.mp hp with hp | hp
    · exact ⟨(ih p hp).1, le_trans (ih p hp).2 hle⟩
    · rw [List.mem_singleton] at hp
      subst hp
      exact ⟨le_refl t, le_refl t⟩
  | saveAsync d t r ta ra remote h hle ih =>
    intro p hp
    rw [show (savePlan d t r ta ra remote _)
        = savePlanSync d t r ta ra _ from rfl,
      getAllPlans_savePlanSync] at hp
    rcases List.mem_append.mp hp with hp | hp
    · exact ⟨(ih p hp).1, le_trans (ih p hp).2 hle⟩
    · rw [List.mem_singleton] at hp
      subst hp
      exact ⟨le_refl t, le_refl t⟩
  | update id u t ta1 ta2 ra1 ra2 remote h hle hcr ih =>
    intro p hp
    rw [updatePlan_getAllPlans] at hp
    rcases mem_plansAfterUpdate hp with hp | ⟨q, hq, rfl⟩
    · exact ⟨(ih p hp).1, le_trans (ih p hp).2 hle⟩
    · have hqi := ih q hq
      refine ⟨?_, le_refl t⟩
      show u.createdAt.getD q.createdAt ≤ t
      rw [hcr, Option.getD_none]
      exact le_trans (le_trans hqi.1 hqi.2) hle
  | updateSync id u t ta1 ta2 ra1 ra2 h hle hcr ih =>
    intro p hp
    rw [updatePlanSync_getAllPlans] at hp
    rcases mem_plansAfterUpdate hp with hp | ⟨q, hq, rfl⟩
    · exact ⟨(ih p hp).1, le_trans (ih p hp).2 hle⟩
    · have hqi := ih q hq
      refine ⟨?_, le_refl t⟩
      show u.createdAt.getD q.createdAt ≤ t
      rw [hcr, Option.getD_none]
      exact le_trans (le_trans hqi.1 hqi.2) hle
  | updateTasks planId tasks t ta1 ta2 ra1 ra2 h hle ih =>
    intro p hp
    rw [updateCompletedTasks_getAllPlans] at hp
    split at hp
    · exact ⟨(ih p hp).1, le_trans (ih p hp).2 hle⟩
    · rcases mem_plansAfterUpdate hp with hp | ⟨q, hq, rfl⟩
      · exact ⟨(ih p hp).1, le_trans (ih p hp).2 hle⟩
      · have hqi := ih q hq
        exact ⟨le_trans (le_trans hqi.1 hqi.2) hle, le_refl t⟩
  | del id remote h ih =>
    intro p hp
    exact ih p (deletePlan_subset id remote _ p hp)

/-- Claim C3 (amended): in every state reachable by save / update /
delete calls with non-decreasing clocks whose update arguments never
carry a `createdAt` field, every stored plan satisfies
`createdAt ≤ updatedAt`; and every mutation stamps the plan it writes
with the mutation time — any plan present after a save or an update
that was not already stored carries `updatedAt = now`. -/
theorem updatedAt_invariant :
    (∀ tm s, Reach tm s →
      ∀ p ∈ getAllPlans s, p.createdAt ≤ p.updatedAt ∧ p.updatedAt ≤ tm)
    ∧ (∀ d t r ta ra s p,
        p ∈ getAllPlans (savePlanSync d t r ta ra s).1 →
        p ∈ getAllPlans s ∨ p.updatedAt = t)
    ∧ (∀ id u t ta1 ta2 ra1 ra2 s p,
        p ∈ getAllPlans (updatePlanSync id u t ta1 ta2 ra1 ra2 s).1 →
        p ∈ getAllPlans s ∨ p.updatedAt = t)
    ∧ (∀ id u t ta1 ta2 ra1 ra2 remote s p,
        p ∈ getAllPlans (updatePlan id u t ta1 ta2 ra1 ra2 remote s).1 →
        p ∈ getAllPlans s ∨ p.updatedAt = t)
    ∧ (∀ planId tasks t ta1 ta2 ra1 ra2 s p,
        p ∈ getAllPlans
          (updateCompletedTasks planId tasks t ta1 ta2 ra1 ra2 s).1 →
        p ∈ getAllPlans s ∨ p.updatedAt = t) := by
  refine ⟨reach_bounds, ?_, ?_, ?_, ?_⟩
  · intro d t r ta ra s p hp
    rw [getAllPlans_savePlanSync] at hp
    rcases List.mem_append.mp hp with hp | hp
    · exact Or.inl hp
    · rw [List.mem_singleton] at hp
      subst hp
      exact Or.inr rfl
  · intro id u t ta1 ta2 ra1 ra2 s p hp
    rw [updatePlanSync_getAllPlans] at hp
    rcases mem_plansAfterUpdate hp with hp | ⟨q, _, rfl⟩
    · exact Or.inl hp
    · exact Or.inr rfl
  · intro id u t ta1 ta2 ra1 ra2 remote s p hp
    rw [updatePlan_getAllPlans] at hp
    rcases mem_plansAfterUpdate hp with hp | ⟨q, _, rfl⟩
    · exact Or.inl hp
    · exact Or.inr rfl
  · intro planId tasks t ta1 ta2 ra1 ra2 s p hp
    rw [updateCompletedTasks_getAllPlans] at hp
    split at hp
    · exact Or.inl hp
    · rcases mem_plansAfterUpdate hp with hp | ⟨q, _, rfl⟩
      · exact Or.inl hp
      · exact Or.inr rfl

/-- Claim C3 counterexample: saving at time 0 and then updating at time
1 with a `Partial<StoredStudyPlan>` that happens to include
`createdAt := 100` — timestamps of the calls non-decreasing — leaves a
stored plan with `createdAt = 100 > 1 = updatedAt`, violating the
claimed invariant for arbitrary partial-field update arguments. -/
theorem updatedAt_createdAt_override_cex :
    (getAllPlans exOverridden).map (fun p => (p.createdAt, p.updatedAt))
      = [(100, 1)]
    ∧ ((getAllPlans exOverridden).all
        (fun p => decide (p.createdAt ≤ p.updatedAt))) = false :=
  ⟨rfl, rfl⟩

/-- Witness for C3 (amended) at a concrete reachable state: the plan
saved at time 0 satisfies the invariant. -/
theorem updatedAt_invariant_witness :
    exPlan.createdAt ≤ exPlan.updatedAt ∧ exPlan.updatedAt ≤ 0 := by
  have h := updatedAt_invariant
  exact h.1 0 exSaved
    (Reach.save exPlanData 0 "r0" 0 "ra" Reach.init (le_refl 0))
    exPlan (by decide)

/-- `saveSeq` appends the records of its calls, in order. -/
lemma getAllPlans_saveSeq (calls : List SaveCall) :
    ∀ s : StoreState, getAllPlans (saveSeq calls s)
      = getAllPlans s
        ++ calls.map (fun c => mkNewPlan c.data c.time c.rand) := by
  induction calls with
  | nil => intro s; simp [saveSeq]
  | cons c cs ih =>
    intro s
    rw [show saveSeq (c :: cs) s
        = saveSeq cs (savePlanSync c.data c.time c.rand c.ta c.ra s).1
      from rfl,
      ih, getAllPlans_savePlanSync, List.map_cons, List.append_assoc,
      List.singleton_append]

/-- Claim C4 counterexample: two `savePlanSync` calls that observe the
same `Date.now()` reading and the same random suffix produce identical
ids — uniqueness is not formally prevented by the construction. -/
theorem savePlan_id_collision_cex :
    (getAllPlans (saveSeq [exCallA, exCallA] initState)).map
        (fun p => p.id)
      = ["plan_5_abc", "plan_5_abc"]
    ∧ ¬ (["plan_5_abc", "plan_5_abc"].Pairwise
        (fun a b => a ≠ b)) :=
  ⟨rfl, by decide⟩

/-- Claim C4 (amended): for any sequence of saves whose observed
`(Date.now(), random suffix)` pairs are pairwise distinct, the ids of
all plans in the store are pairwise distinct — the id construction
`plan_${t}_${r}` is injective in the pair. -/
theorem savePlan_ids_unique (calls : List SaveCall)
    (h : (calls.map (fun c => (c.time, c.rand))).Pairwise
      (fun a b => a ≠ b)) :
    ((getAllPlans (saveSeq calls initState)).map (fun p => p.id)).Pairwise
      (fun a b => a ≠ b) := by
  rw [getAllPlans_saveSeq, show getAllPlans initState = [] from rfl,
    List.nil_append, List.map_map]
  rw [List.pairwise_map] at h ⊢
  refine h.imp ?_
  intro a b hab heq
  obtain ⟨h1, h2⟩ := genId_inj heq
  exact hab (by rw [h1, h2])

/-- Witness for C4 (amended): two saves in the same millisecond with
distinct random suffixes yield distinct stored ids. -/
theorem savePlan_ids_unique_witness :
    ((getAllPlans (saveSeq [exCallA, exCallB] initState)).map
      (fun p => p.id)).Pairwise (fun a b => a ≠ b) :=
  savePlan_ids_unique [exCallA, exCallB] (by decide)

end StudyPlanStore
